import Mathlib

/-!
A shallow embedding of the `aws-name-server` DNS server (Go sources
`cache.go`, `nameserver.go`) and proofs about it.

Modelling conventions:
* Go `time.Time` values are integers counting nanoseconds from a fixed
  origin; the Go zero `time.Time` (year 1) is the integer `0`, and every
  value `time.Now()` can return is strictly positive.
* Go `time.Duration` is an integer number of nanoseconds.
* A Go `net.IP` is `Option String` (`none` is the nil IP); the library
  function `net.ParseIP` is abstracted to carry the address text through,
  since no property proved here inspects the bytes of an address.
* A Go `map[Key][]*Record` is an association list with unique keys;
  `mapGet` is indexing with the zero value `[]` for a missing key, and
  `mapSet` is whole-key assignment.  Records are never mutated after
  insertion, so the Go pointer sharing is invisible and records are values.
* Fallible Go functions return `Except String`, panicking code paths
  return `Option` (`none` marks a runtime panic).
-/

set_option autoImplicit false

namespace AwsNameServer

/-- Type `LookupTag` from cache.go: the type of tag the cache is keyed by. -/
inductive LookupTag where
  | NAME
  | ROLE
deriving DecidableEq, Repr

/-- Type `Key` from cache.go: lookup tag together with the looked-up label. -/
structure Key where
  tag : LookupTag
  label : String
deriving DecidableEq, Repr

/-- Type `Record` from cache.go: the DNS record for one EC2 or RDS instance.
The Go zero value has `CName = ""`, nil IPs and the zero time. -/
structure Record where
  cname : String
  publicIP : Option String
  privateIP : Option String
  validUntil : Int
deriving DecidableEq, Repr

/-- Type `AWSAccount` from cache.go. -/
structure AWSAccount where
  nickName : String
  arn : String
  region : String
deriving DecidableEq, Repr

/-- The records map of one cache: `map[Key][]*Record` as an association
list with unique keys. -/
abbrev RecMap := List (Key × List Record)

/-- Indexing a Go map: the first (unique) entry for the key, or the zero
value `[]` when the key is absent. -/
def mapGet : RecMap → Key → List Record
  | [], _ => []
  | p :: m, k => if p.1 = k then p.2 else mapGet m k

/-- Whole-key assignment `m[k] = v` on a Go map. -/
def mapSet : RecMap → Key → List Record → RecMap
  | [], k, v => [(k, v)]
  | p :: m, k, v => if p.1 = k then (k, v) :: m else p :: mapSet m k v

/-- Appending: `records[k] = append(records[k], &record)` from cache.go. -/
def mapAppend (m : RecMap) (k : Key) (r : Record) : RecMap :=
  mapSet m k (mapGet m k ++ [r])

/-- The keys of a records map. -/
def keysOf (m : RecMap) : List Key := m.map Prod.fst

/-- Copying: `for k, v := range src \x7b dst[k] = v \x7d` from cache.go `refresh`. -/
def copyInto (dst src : RecMap) : RecMap :=
  src.foldl (fun a p => mapSet a p.1 p.2) dst

/-- Type `Cache` from cache.go (the mutex guards concurrency only and has no
sequential content). -/
structure Cache where
  awsAccount : AWSAccount
  records : RecMap
  domain : String
deriving DecidableEq, Repr

/-- Method `Cache.Lookup` from cache.go: `cache.records[Key{tag, value}]`. -/
def cacheLookup (c : Cache) (tag : LookupTag) (value : String) : List Record :=
  mapGet c.records ⟨tag, value⟩

/-- Method `Cache.Size` from cache.go: `len(cache.records)`. -/
def cacheSize (c : Cache) : Nat := c.records.length

/-- Library `strings.ToLower` on one character.  Go lowers the full Unicode
alphabet; outside ASCII a character and its lowering are both outside the
`\w` alphabet, so lowering them is modelled as the identity. -/
def goToLower (c : Char) : Char :=
  if 65 ≤ c.toNat ∧ c.toNat ≤ 90 then Char.ofNat (c.toNat + 32) else c

/-- Membership in the character class `[\w-]` of the two regular
expressions `SANE_DNS_NAME` and `SANE_DNS_REPL` in cache.go. -/
def saneChar (c : Char) : Bool :=
  (97 ≤ c.toNat && c.toNat ≤ 122) || (65 ≤ c.toNat && c.toNat ≤ 90) ||
    (48 ≤ c.toNat && c.toNat ≤ 57) || c = '_' || c = '-'

/-- Replacement `SANE_DNS_REPL.ReplaceAllString(out, "-")`: replace every maximal run
of characters outside `[\w-]` by a single hyphen.  The flag records
whether the previous character was part of such a run. -/
def replaceRunsAux : Bool → List Char → List Char
  | _, [] => []
  | inRun, c :: cs =>
    if saneChar c then c :: replaceRunsAux false cs
    else if inRun then replaceRunsAux true cs
    else '-' :: replaceRunsAux true cs

/-- Function `sanitize` from cache.go on a character list: lower-case, keep the
result when it matches `^[\w-]+$`, otherwise replace each maximal
disallowed run with `-`. -/
def sanitizeList (l : List Char) : List Char :=
  if l.map goToLower ≠ [] ∧ (l.map goToLower).all saneChar then l.map goToLower
  else replaceRunsAux false (l.map goToLower)

/-- Function `sanitize` from cache.go. -/
def sanitize (s : String) : String := ⟨sanitizeList s.data⟩

/-- Constant `TTL` from cache.go (`1 * time.Minute`), in nanoseconds. -/
def ttlNs : Int := 60 * 1000000000

/-- One `ec2.Tag` of an instance. -/
structure InstTag where
  key : String
  value : String
deriving DecidableEq, Repr

/-- The fields of one `ec2.Instance` read by `createInstanceRecords`.
A `none` address is a nil `PrivateIpAddress` pointer. -/
structure Instance where
  instanceId : String
  privateIpAddress : Option String
  tags : List InstTag
deriving DecidableEq, Repr

/-- One `ec2.Reservation` of a `DescribeInstancesOutput`. -/
structure Reservation where
  instances : List Instance
deriving DecidableEq, Repr

/-- The fields of one `rds.DBInstance` read by `createDatabaseRecords`. -/
structure DBInstance where
  identifier : String
  endpointAddress : String
deriving DecidableEq, Repr

/-- The body of the instance loop in `createInstanceRecords`: build one
record valid for `TTL` from `now` and append it under the instance id and
under the sanitized `Name` and `Role` tags. -/
def instanceStep (now : Int) (m : RecMap) (inst : Instance) : RecMap :=
  let record : Record :=
    { cname := "", publicIP := none, privateIP := inst.privateIpAddress,
      validUntil := now + ttlNs }
  let m := mapAppend m ⟨LookupTag.NAME, inst.instanceId⟩ record
  inst.tags.foldl
    (fun acc tg =>
      let acc := if tg.key = "Name" then
        mapAppend acc ⟨LookupTag.NAME, sanitize tg.value⟩ record else acc
      if tg.key = "Role" then
        mapAppend acc ⟨LookupTag.ROLE, sanitize tg.value⟩ record else acc)
    m

/-- Function `createInstanceRecords` from cache.go (`now` is the `time.Now()` read
when each record is built; one refresh is modelled at one instant). -/
def createInstanceRecords (instancesResult : List Reservation) (now : Int) : RecMap :=
  instancesResult.foldl (fun m res => res.instances.foldl (instanceStep now) m) []

/-- Function `createDatabaseRecords` from cache.go: each database instance with a
non-empty endpoint address contributes a record whose `CName` is the
dot-terminated endpoint; the other fields keep their zero values. -/
def createDatabaseRecords (databaseResult : List DBInstance) : RecMap :=
  databaseResult.foldl
    (fun m r =>
      if r.endpointAddress ≠ "" then
        mapAppend m ⟨LookupTag.NAME, sanitize r.identifier⟩
          { cname := r.endpointAddress ++ ".", publicIP := none,
            privateIP := none, validUntil := 0 }
      else m)
    []

/-- The results the external AWS collaborators hand one run of
`Cache.refresh`: each network call either fails or returns its payload
(sessions and credentials are opaque to the rest of the code). -/
structure RefreshEnv where
  newSession : Except String Unit
  assumeRole : Except String Unit
  newSessionSts : Except String Unit
  databases : Except String (List DBInstance)
  instancesResult : Except String (List Reservation)
deriving Repr

/-- The credential part of `Cache.refresh`: when the account has a
non-empty ARN the role must be assumed and a second session built from the
returned static credentials; otherwise the first session is used as is. -/
def authStep (c : Cache) (env : RefreshEnv) : Except String Unit :=
  if c.awsAccount.arn ≠ "" then
    match env.assumeRole with
    | .error e => .error e
    | .ok _ => env.newSessionSts
  else .ok ()

/-- Method `Cache.refresh` from cache.go: create a session, assume the role when
the account has a non-empty ARN, fetch databases then instances, build the
new map (database entries first, then instance entries, each by whole-key
assignment) and publish it via `setRecords`.  Any failing step returns its
error at once, leaving the cache unchanged. -/
def refresh (c : Cache) (env : RefreshEnv) (now : Int) : Except String Cache :=
  match env.newSession, authStep c env, env.databases, env.instancesResult with
  | .error e, _, _, _ => .error e
  | .ok _, .error e, _, _ => .error e
  | .ok _, .ok _, .error e, _ => .error e
  | .ok _, .ok _, .ok _, .error e => .error e
  | .ok _, .ok _, .ok dbs, .ok insts =>
    .ok { c with records := (copyInto (copyInto [] (createDatabaseRecords dbs)) (createInstanceRecords insts now)) }

/-- One tick of the background goroutine started in `NewCaches`: run
`refresh`; on error the error is only logged and the cache keeps its
snapshot, the process continues. -/
def refreshTick (c : Cache) (env : RefreshEnv) (now : Int) : Cache :=
  match refresh c env now with
  | .error _ => c
  | .ok c' => c'

/-- A cache as first built in `NewCaches`, before its initial refresh. -/
def initCache (a : AWSAccount) (domain : String) : Cache :=
  { awsAccount := a, records := [], domain := domain }

/-- The implicit local account `NewCaches` always adds last. -/
def mainAccount : AWSAccount :=
  { nickName := "main", arn := "", region := "us-east-1" }

/-- The loop of `NewCaches` over the configured child accounts: build each
cache and run its initial refresh, failing fast on error. -/
def refreshAll (accountEnvs : List (AWSAccount × RefreshEnv)) (domain : String)
    (now : Int) : Except String (List Cache) :=
  match accountEnvs with
  | [] => .ok []
  | (a, env) :: rest =>
    match refresh (initCache a domain) env now with
    | .error e => .error e
    | .ok c =>
      match refreshAll rest domain now with
      | .error e => .error e
      | .ok cs => .ok (c :: cs)

/-- Function `NewCaches` from cache.go: the configured child accounts in order,
then the implicit `main` account, each with a successful initial refresh;
also returns the record count summed over all caches. -/
def NewCaches (accountEnvs : List (AWSAccount × RefreshEnv)) (mainEnv : RefreshEnv)
    (domain : String) (now : Int) : Except String (List Cache × Nat) :=
  match refreshAll accountEnvs domain now with
  | .error e => .error e
  | .ok subs =>
    match refresh (initCache mainAccount domain) mainEnv now with
    | .error e => .error e
    | .ok mainCache =>
      .ok (subs ++ [mainCache], (subs.map cacheSize).sum + cacheSize mainCache)

/-- Method `Record.TTL` from cache.go: ten seconds once `now` is after
`ValidUntil`, otherwise the remaining validity, as a duration in
nanoseconds (`now.After(v)` is strict). -/
def recordTTL (r : Record) (now : Int) : Int :=
  if r.validUntil < now then 10 * 1000000000 else r.validUntil - now

/-- The TTL field `uint32(record.TTL(time.Now()) / time.Second)` computed
in `NameServer.Answer`: whole seconds (the Go `int64` division truncates;
the duration is never negative), converted to `uint32`. -/
def advertisedTTL (r : Record) (now : Int) : Nat :=
  ((recordTTL r now).toNat / 1000000000) % 4294967296

/-- The question types distinguished by `NameServer.Answer`; every other
`Qtype` behaves like `OTHER`. -/
inductive Qtype where
  | A
  | NS
  | SOA
  | OTHER
deriving DecidableEq, Repr

/-- One `dns.Question`. -/
structure Question where
  qtype : Qtype
  name : String
deriving DecidableEq, Repr

/-- The resource records `NameServer.Answer` can synthesize.  Only the
fields the code fills from its own data are kept; a `none` address in an
`a` record is the nil `net.IP`. -/
inductive RR where
  | ns (name target : String) (ttl : Nat)
  | soa (name nameserver mbox : String) (serial : Nat) (ttl : Nat)
  | cname (name target : String) (ttl : Nat)
  | a (name : String) (addr : Option String) (ttl : Nat)
deriving DecidableEq, Repr

/-- Type `NameServer` from nameserver.go (`domain` and `hostname` are already
dot-terminated by `NewNameServer`). -/
structure NameServer where
  domain : String
  hostname : String
  caches : List Cache
deriving DecidableEq, Repr

/-- Library `strconv.Atoi`: an optional sign followed by at least one digit,
anything else is an error.  (The `int64` overflow error is not modelled;
every integer handled here is far below that range.) -/
def goAtoi (s : String) : Option Int :=
  match s.data with
  | [] => none
  | c :: rest =>
    let neg : Bool := c = '-'
    let ds : List Char := if c = '-' ∨ c = '+' then rest else c :: rest
    if ds = [] then none
    else if ds.all (fun d => 48 ≤ d.toNat && d.toNat ≤ 57) then
      let n : Nat := ds.foldl (fun n d => 10 * n + (d.toNat - 48)) 0
      some (if neg then -(n : Int) else (n : Int))
    else none

/-- Library `strings.TrimSuffix`: drop the suffix when present, otherwise return
the string unchanged. -/
def goTrimSuffix (s suffix : String) : String :=
  if suffix.data.isSuffixOf s.data
  then ⟨s.data.take (s.data.length - suffix.data.length)⟩ else s

/-- Library `strings.Split(s, ".")` on the character list: the (possibly empty)
chunks between the dots, never an empty result list. -/
def goSplitDot : List Char → List (List Char)
  | [] => [[]]
  | c :: cs =>
    if c = '.' then [] :: goSplitDot cs
    else
      match goSplitDot cs with
      | r :: rs => (c :: r) :: rs
      | [] => [[c]]

/-- The aggregation loop of `NameServer.Lookup`: every configured cache in
order, each record of each cache appended in order. -/
def aggregate (caches : List Cache) (tag : LookupTag) (value : String) : List Record :=
  caches.foldl (fun acc c => acc ++ cacheLookup c tag value) []

/-- The body of `NameServer.Lookup` after the question name has been split
into labels.  Mirrors the Go control flow exactly, including the slice
aliasing: `hostNick` is bound to the label list before the `role` suffix
is stripped and is rebound only when an index is parsed.  `none` models
the panic of the slice expression `results[nth : nth+1]` for a negative
`nth`; `some []` is the `return nil` of a badly formed name. -/
def nsLookupParts (caches : List Cache) (parts0 : List String) : Option (List Record) :=
  let stripRole : Bool := if 1 < parts0.length then decide (parts0.getLastD "" = "role") else false
  let parts1 : List String := if stripRole then parts0.dropLast else parts0
  let tag : LookupTag := if stripRole then LookupTag.ROLE else LookupTag.NAME
  let idx : Option Int := if 1 < parts1.length then goAtoi (parts1.headD "") else none
  let nth : Int := idx.getD 0
  let hostNick : List String := if idx.isSome then parts1.tail else parts0
  if hostNick.length ≠ 1 ∨ hostNick.headD "" = "" then some []
  else
    let results := aggregate caches tag (hostNick.headD "")
    if 1 < parts1.length then
      if (results.length : Int) ≤ nth then some []
      else if nth < 0 then none
      else some ((results.drop nth.toNat).take 1)
    else some results

/-- Method `NameServer.Lookup` from nameserver.go: trim the served domain from
the question name, split the rest into labels and resolve them. -/
def nsLookup (s : NameServer) (qname : String) : Option (List Record) :=
  nsLookupParts s.caches
    ((goSplitDot (goTrimSuffix qname ("." ++ s.domain)).data).map fun l => ⟨l⟩)

/-- The per-record body of the answer loop in `NameServer.Answer`: under
`Qtype` A one CNAME when the record has a `CName`, otherwise one A record
with the private IP; other question types synthesize nothing. -/
def recordAnswers (qtype : Qtype) (qname : String) (r : Record) (now : Int) : List RR :=
  if qtype = Qtype.A then
    if r.cname ≠ "" then [RR.cname qname r.cname (advertisedTTL r now)]
    else [RR.a qname r.privateIP (advertisedTTL r now)]
  else []

/-- The whole answer loop of `NameServer.Answer` over the resolver's
records. -/
def answersForRecords (qtype : Qtype) (qname : String) (recs : List Record)
    (now : Int) : List RR :=
  recs.foldl (fun acc r => acc ++ recordAnswers qtype qname r now) []

/-- Method `NameServer.SOA` from nameserver.go (serial is the Unix time drawn
from `now`). -/
def soaFor (s : NameServer) (now : Int) : RR :=
  RR.soa s.domain s.hostname "hostmaster." ((now / 1000000000).toNat % 4294967296) 60

/-- Method `NameServer.Answer` from nameserver.go: NS and SOA questions are
answered at the apex only; everything else goes through the resolver, and
a resolver panic propagates. -/
def answer (s : NameServer) (q : Question) (now : Int) : Option (List RR) :=
  if q.qtype = Qtype.NS then
    some (if q.name = s.domain then [RR.ns q.name s.hostname 300] else [])
  else if q.qtype = Qtype.SOA then
    some (if q.name = s.domain then [soaFor s now] else [])
  else (nsLookup s q.name).map fun recs => answersForRecords q.qtype q.name recs now

/-! ### Association-list map lemmas -/

/-- Reading back the key just assigned. -/
theorem mapGet_mapSet_self (m : RecMap) (k : Key) (v : List Record) :
    mapGet (mapSet m k v) k = v := by
  induction m with
  | nil => simp [mapSet, mapGet]
  | cons p m ih =>
    by_cases hp : p.1 = k
    · simp [mapSet, hp, mapGet]
    · simp [mapSet, hp, mapGet, ih]

/-- Reading any other key after an assignment. -/
theorem mapGet_mapSet_ne (m : RecMap) (k : Key) (v : List Record) (k' : Key)
    (h : k ≠ k') : mapGet (mapSet m k v) k' = mapGet m k' := by
  induction m with
  | nil => simp [mapSet, mapGet, h]
  | cons p m ih =>
    by_cases hp : p.1 = k
    · simp [mapSet, hp, mapGet, h]
    · simp [mapSet, hp, mapGet, ih]

/-- Reading a map after a whole-key assignment. -/
theorem mapGet_mapSet (m : RecMap) (k : Key) (v : List Record) (k' : Key) :
    mapGet (mapSet m k v) k' = if k = k' then v else mapGet m k' := by
  by_cases hk : k = k'
  · subst hk
    rw [if_pos rfl]
    exact mapGet_mapSet_self m k v
  · rw [if_neg hk]
    exact mapGet_mapSet_ne m k v k' hk

/-- The keys after a whole-key assignment: unchanged when the key already
exists, extended by the key otherwise. -/
theorem keysOf_mapSet (m : RecMap) (k : Key) (v : List Record) :
    keysOf (mapSet m k v) = if k ∈ keysOf m then keysOf m else keysOf m ++ [k] := by
  induction m with
  | nil => simp [mapSet, keysOf]
  | cons p m ih =>
    by_cases hp : p.1 = k
    · simp [mapSet, if_pos hp, keysOf, hp]
    · have hne : ¬ k = p.1 := fun h => hp h.symm
      simp only [mapSet, if_neg hp, keysOf, List.map_cons] at ih ⊢
      rw [ih]
      simp only [List.mem_cons, hne, false_or]
      by_cases hm : k ∈ List.map Prod.fst m
      · simp [hm]
      · simp [hm]

/-- Assignment keeps the unique-keys invariant of a Go map. -/
theorem nodupKeys_mapSet {m : RecMap} (k : Key) (v : List Record)
    (h : (keysOf m).Nodup) : (keysOf (mapSet m k v)).Nodup := by
  rw [keysOf_mapSet]
  split
  · exact h
  · rename_i hk
    simp [List.nodup_append, h, hk]

/-- Appending to one key keeps the unique-keys invariant. -/
theorem nodupKeys_mapAppend {m : RecMap} (k : Key) (r : Record)
    (h : (keysOf m).Nodup) : (keysOf (mapAppend m k r)).Nodup :=
  nodupKeys_mapSet k _ h

/-- A key absent from a map reads as the zero value. -/
theorem mapGet_eq_nil_of_not_mem (m : RecMap) (k : Key) (h : k ∉ keysOf m) :
    mapGet m k = [] := by
  induction m with
  | nil => rfl
  | cons p m ih =>
    simp only [keysOf, List.map_cons, List.mem_cons, not_or] at h
    have hp : ¬ p.1 = k := fun he => h.1 he.symm
    simp only [mapGet, if_neg hp]
    exact ih (by simpa [keysOf] using h.2)

/-- A key that reads non-empty is present. -/
theorem mem_keysOf_of_mapGet_ne_nil {m : RecMap} {k : Key}
    (h : mapGet m k ≠ []) : k ∈ keysOf m := by
  by_contra hk
  exact h (mapGet_eq_nil_of_not_mem m k hk)

/-- A fold preserves any invariant its step preserves. -/
theorem foldl_preserve {α β : Type} {P : α → Prop} {f : α → β → α}
    (hstep : ∀ a b, P a → P (f a b)) :
    ∀ (l : List β) (a : α), P a → P (l.foldl f a) := by
  intro l
  induction l with
  | nil => exact fun a ha => ha
  | cons b l ih => exact fun a ha => ih _ (hstep a b ha)

/-- Reading the result of copying the entries of `src` (a map with unique
keys) over `dst`: entries of `src` win. -/
theorem mapGet_copyInto (src : RecMap) (hsrc : (keysOf src).Nodup)
    (dst : RecMap) (k : Key) :
    mapGet (copyInto dst src) k =
      if k ∈ keysOf src then mapGet src k else mapGet dst k := by
  induction src generalizing dst with
  | nil => simp [copyInto, keysOf]
  | cons p src ih =>
    simp only [keysOf, List.map_cons, List.nodup_cons] at hsrc
    have hrec := ih (by simpa [keysOf] using hsrc.2) (mapSet dst p.1 p.2)
    simp only [copyInto, List.foldl_cons] at hrec ⊢
    rw [hrec, mapGet_mapSet]
    by_cases hpk : p.1 = k
    · subst hpk
      have hknot : p.1 ∉ keysOf src := by simpa [keysOf] using hsrc.1
      have hmem : p.1 ∈ keysOf (p :: src) := by simp [keysOf]
      rw [if_neg hknot, if_pos rfl, if_pos hmem]
      simp [mapGet]
    · have h1 : ¬ k = p.1 := fun h => hpk h.symm
      simp only [keysOf, List.map_cons, List.mem_cons, h1, false_or, mapGet,
        if_neg hpk]

/-- Copying a unique-keys map over the empty map reads back unchanged. -/
theorem mapGet_copyInto_nil (src : RecMap) (hsrc : (keysOf src).Nodup) (k : Key) :
    mapGet (copyInto [] src) k = mapGet src k := by
  rw [mapGet_copyInto src hsrc]
  split
  · rfl
  · rename_i hk
    exact (mapGet_eq_nil_of_not_mem src k hk).symm

/-- Everything read from a map after appending one record was already
there or is that record. -/
theorem mem_mapGet_mapAppend {m : RecMap} {k' : Key} {rec : Record} {k : Key}
    {r : Record} (h : r ∈ mapGet (mapAppend m k' rec) k) :
    r ∈ mapGet m k ∨ r = rec := by
  unfold mapAppend at h
  rw [mapGet_mapSet] at h
  split at h
  · rename_i hk
    subst hk
    rcases List.mem_append.mp h with h1 | h1
    · exact Or.inl h1
    · exact Or.inr (List.mem_singleton.mp h1)
  · exact Or.inl h

/-! ### Invariants of the two normalization passes -/

/-- The body of the instance loop keeps the unique-keys invariant. -/
theorem nodupKeys_instanceStep (now : Int) (m : RecMap) (inst : Instance)
    (h : (keysOf m).Nodup) : (keysOf (instanceStep now m inst)).Nodup := by
  unfold instanceStep
  apply foldl_preserve (P := fun m => (keysOf m).Nodup)
  · intro a tg ha
    split
    · split
      · exact nodupKeys_mapAppend _ _ (nodupKeys_mapAppend _ _ ha)
      · exact nodupKeys_mapAppend _ _ ha
    · split
      · exact nodupKeys_mapAppend _ _ ha
      · exact ha
  · exact nodupKeys_mapAppend _ _ h

/-- The instance map of one refresh has unique keys. -/
theorem nodupKeys_createInstanceRecords (instancesResult : List Reservation)
    (now : Int) : (keysOf (createInstanceRecords instancesResult now)).Nodup := by
  unfold createInstanceRecords
  apply foldl_preserve (P := fun m => (keysOf m).Nodup)
  · intro a res ha
    exact foldl_preserve (fun m inst hm => nodupKeys_instanceStep now m inst hm)
      res.instances a ha
  · simp [keysOf]

/-- The database map of one refresh has unique keys. -/
theorem nodupKeys_createDatabaseRecords (databaseResult : List DBInstance) :
    (keysOf (createDatabaseRecords databaseResult)).Nodup := by
  unfold createDatabaseRecords
  apply foldl_preserve (P := fun m => (keysOf m).Nodup)
  · intro a r ha
    dsimp only
    split
    · exact nodupKeys_mapAppend _ _ ha
    · exact ha
  · simp [keysOf]

/-- Every record of the database map keeps the zero `ValidUntil` and
carries a non-empty dot-terminated `CName`. -/
theorem createDatabaseRecords_shape (databaseResult : List DBInstance)
    (k : Key) (r : Record) (h : r ∈ mapGet (createDatabaseRecords databaseResult) k) :
    r.validUntil = 0 ∧ r.cname ≠ "" := by
  revert k r
  unfold createDatabaseRecords
  apply foldl_preserve
    (P := fun m => ∀ k r, r ∈ mapGet m k → r.validUntil = 0 ∧ r.cname ≠ "")
  · intro a d ha k r hr
    split at hr
    · rcases mem_mapGet_mapAppend hr with hold | hnew
      · exact ha k r hold
      · subst hnew
        refine ⟨rfl, ?_⟩
        intro hc
        have hc' : (d.endpointAddress ++ ".").data = "".data := by
          simp only at hc
          rw [hc]
        simp [String.data_append] at hc'
    · exact ha k r hr
  · intro k r hr
    simp [mapGet] at hr

/-! ### TTL computation -/

/-- The duration `Record.TTL` returns is never negative. -/
theorem recordTTL_nonneg (r : Record) (now : Int) : 0 ≤ recordTTL r now := by
  unfold recordTTL
  split <;> omega

/--
C7 — for every Record and query time: if the query time is after
`ValidUntil`, the advertised TTL is exactly the fixed ten-second grace
value, however far in the past `ValidUntil` lies; otherwise it is the
remaining validity floored to whole seconds (stated below the `uint32`
range, which every duration the code builds satisfies).
-/
theorem c7_ttl_advertised (r : Record) (now : Int) :
    (r.validUntil < now → advertisedTTL r now = 10) ∧
    (¬ r.validUntil < now → r.validUntil - now < 4294967296 * 1000000000 →
      advertisedTTL r now = (r.validUntil - now).toNat / 1000000000) := by
  constructor
  · intro h
    unfold advertisedTTL recordTTL
    rw [if_pos h]
    decide
  · intro h hb
    unfold advertisedTTL recordTTL
    rw [if_neg h]
    apply Nat.mod_eq_of_lt
    rw [Nat.div_lt_iff_lt_mul (by norm_num : 0 < 1000000000)]
    omega

/-- A record still valid at the witness query time. -/
def freshRecord : Record :=
  { cname := "", publicIP := none, privateIP := none, validUntil := 100000000000 }

/-- A record already expired at every positive query time. -/
def expiredRecord : Record :=
  { cname := "", publicIP := none, privateIP := none, validUntil := 0 }

/-- Witness for C7: a fresh record advertises its remaining seconds, an
expired one advertises ten. -/
theorem c7_witness :
    advertisedTTL freshRecord 30000000000 = 70 ∧
    advertisedTTL expiredRecord 50 = 10 := by
  constructor
  · have h := (c7_ttl_advertised freshRecord 30000000000).2
      (by decide) (by decide)
    rw [h]
    decide
  · exact (c7_ttl_advertised expiredRecord 50).1 (by decide)

/-! ### Refresh failure semantics -/

/--
C2 — when `refresh` fails at any step it returns the error and the
background tick keeps the cache exactly as it was: every `Lookup` and
`Size` afterwards still sees the last published snapshot, and the tick
loop carries on (the error is only logged).
-/
theorem c2_refresh_error_preserves_snapshot (c : Cache) (env : RefreshEnv)
    (now : Int) (e : String) (h : refresh c env now = .error e) :
    refreshTick c env now = c ∧
    (∀ tag value, cacheLookup (refreshTick c env now) tag value
      = cacheLookup c tag value) ∧
    cacheSize (refreshTick c env now) = cacheSize c := by
  have ht : refreshTick c env now = c := by
    unfold refreshTick
    rw [h]
  exact ⟨ht, fun _ _ => by rw [ht], by rw [ht]⟩

/-- A cache with one record, used as a concrete witness input. -/
def demoRecordA : Record :=
  { cname := "", publicIP := none, privateIP := some "10.0.0.1", validUntil := 0 }

/-- A second concrete record. -/
def demoRecordB : Record :=
  { cname := "", publicIP := none, privateIP := some "10.0.0.2", validUntil := 0 }

/-- A concrete cache holding a ROLE record for `api` and two NAME records
for `web`. -/
def demoCache : Cache :=
  { awsAccount := mainAccount,
    records := [(⟨LookupTag.ROLE, "api"⟩, [demoRecordA]),
                (⟨LookupTag.NAME, "web"⟩, [demoRecordA, demoRecordB])],
    domain := "aws.example.com." }

/-- An environment whose database fetch fails. -/
def demoFailEnv : RefreshEnv :=
  { newSession := .ok (), assumeRole := .ok (), newSessionSts := .ok (),
    databases := .error "AccessDenied", instancesResult := .ok [] }

/-- Witness for C2: a failed database fetch leaves the demo cache, its
lookups and its size untouched. -/
theorem c2_witness :
    refreshTick demoCache demoFailEnv 5 = demoCache ∧
    cacheLookup (refreshTick demoCache demoFailEnv 5) LookupTag.NAME "web"
      = cacheLookup demoCache LookupTag.NAME "web" ∧
    cacheSize (refreshTick demoCache demoFailEnv 5) = cacheSize demoCache := by
  have h := c2_refresh_error_preserves_snapshot demoCache demoFailEnv 5
    "AccessDenied" (by rfl)
  exact ⟨h.1, h.2.1 LookupTag.NAME "web", h.2.2⟩

/-! ### Answer synthesis -/

/--
C3 counterexample — a Record with neither an alias target nor an address
is NOT skipped: under Qtype A the handler still emits one (A) answer for
it, refuting the claim that such a record yields no answer at all.
-/
theorem c3_counterexample_empty_record_not_skipped :
    recordAnswers Qtype.A "x.aws.example.com."
      { cname := "", publicIP := none, privateIP := none, validUntil := 0 }
      1000000000 ≠ [] := by
  decide

/--
C3 (amended) — under Qtype A the handler synthesizes exactly one answer
per resolved Record: a CNAME (target = the record's `CName`) when the
`CName` is set, otherwise an A record carrying the record's private
address — which may be nil, a record with neither field set still yields
an A answer rather than being skipped; never both kinds from one record.
-/
theorem c3_one_answer_per_record (qname : String) (recs : List Record) (now : Int) :
    answersForRecords Qtype.A qname recs now =
      recs.map (fun r =>
        if r.cname ≠ "" then RR.cname qname r.cname (advertisedTTL r now)
        else RR.a qname r.privateIP (advertisedTTL r now)) := by
  have step : ∀ (acc : List RR) (rs : List Record),
      rs.foldl (fun acc r => acc ++ recordAnswers Qtype.A qname r now) acc =
        acc ++ rs.map (fun r =>
          if r.cname ≠ "" then RR.cname qname r.cname (advertisedTTL r now)
          else RR.a qname r.privateIP (advertisedTTL r now)) := by
    intro acc rs
    induction rs generalizing acc with
    | nil => simp
    | cons r rs ih =>
      rw [List.foldl_cons, ih, List.map_cons]
      have hr : recordAnswers Qtype.A qname r now =
          [if r.cname ≠ "" then RR.cname qname r.cname (advertisedTTL r now)
           else RR.a qname r.privateIP (advertisedTTL r now)] := by
        unfold recordAnswers
        rw [if_pos rfl]
        split <;> simp_all
      rw [hr]
      simp
  simpa [answersForRecords] using step [] recs

/-! ### Database records and the published snapshot -/

/--
C10 — every database-derived Record is created with its `ValidUntil` left
at the zero time, so at every query time (all of which are after the zero
time) the synthesized answer for it is a CNAME carrying the fixed
ten-second grace TTL, never a freshness-derived one.
-/
theorem c10_database_records_grace_ttl (databaseResult : List DBInstance)
    (k : Key) (r : Record)
    (h : r ∈ mapGet (createDatabaseRecords databaseResult) k) :
    r.validUntil = 0 ∧ r.cname ≠ "" ∧
    ∀ (qname : String) (now : Int), 0 < now →
      recordAnswers Qtype.A qname r now = [RR.cname qname r.cname 10] := by
  obtain ⟨hvu, hcn⟩ := createDatabaseRecords_shape databaseResult k r h
  refine ⟨hvu, hcn, fun qname now hnow => ?_⟩
  have httl : advertisedTTL r now = 10 := by
    unfold advertisedTTL recordTTL
    rw [if_pos (by omega : r.validUntil < now)]
    decide
  unfold recordAnswers
  rw [if_pos rfl, if_pos hcn, httl]

/-- One concrete database fetch result. -/
def demoDatabases : List DBInstance :=
  [{ identifier := "web", endpointAddress := "db.example.com" }]

/-- The record the demo database fetch normalizes to. -/
def demoDbRecord : Record :=
  { cname := "db.example.com.", publicIP := none, privateIP := none,
    validUntil := 0 }

/-- Witness for C10 at a concrete database record. -/
theorem c10_witness :
    recordAnswers Qtype.A "web.aws.example.com." demoDbRecord 5
      = [RR.cname "web.aws.example.com." "db.example.com." 10] := by
  have h := c10_database_records_grace_ttl demoDatabases
    ⟨LookupTag.NAME, "web"⟩ demoDbRecord (by decide)
  exact h.2.2 "web.aws.example.com." 5 (by decide)

/--
C9 — one refresh inserts all database-derived entries first and then all
instance-derived entries by whole-key assignment, so a key produced by
both normalizations maps, in the published snapshot, to the
instance-derived list only; the database records under it are dropped, not
appended.
-/
theorem c9_instance_overwrites_database (c : Cache) (env : RefreshEnv)
    (now : Int) (c' : Cache) (dbs : List DBInstance) (insts : List Reservation)
    (k : Key)
    (hok : refresh c env now = .ok c')
    (hdbs : env.databases = .ok dbs)
    (hinsts : env.instancesResult = .ok insts)
    (hdb : mapGet (createDatabaseRecords dbs) k ≠ [])
    (hin : mapGet (createInstanceRecords insts now) k ≠ []) :
    mapGet c'.records k = mapGet (createInstanceRecords insts now) k ∧
    mapGet c'.records k
      ≠ mapGet (createDatabaseRecords dbs) k
          ++ mapGet (createInstanceRecords insts now) k := by
  have hrec : c'.records
      = copyInto (copyInto [] (createDatabaseRecords dbs))
          (createInstanceRecords insts now) := by
    unfold refresh at hok
    split at hok
    · exact Except.noConfusion hok
    · exact Except.noConfusion hok
    · exact Except.noConfusion hok
    · exact Except.noConfusion hok
    · rename_i u1 u2 dbs0 insts0 hs ha hd0 hi0
      rw [hdbs] at hd0
      rw [hinsts] at hi0
      injection hd0 with hd0
      injection hi0 with hi0
      subst hd0
      subst hi0
      injection hok with hok
      subst hok
      rfl
  have hget : mapGet c'.records k = mapGet (createInstanceRecords insts now) k := by
    rw [hrec,
      mapGet_copyInto _ (nodupKeys_createInstanceRecords insts now) _ k,
      if_pos (mem_keysOf_of_mapGet_ne_nil hin)]
  refine ⟨hget, ?_⟩
  rw [hget]
  intro heq
  have hlen0 := congrArg List.length heq
  rw [List.length_append] at hlen0
  have hlen : (mapGet (createDatabaseRecords dbs) k).length = 0 := by omega
  exact hdb (List.eq_nil_of_length_eq_zero hlen)

/-- One concrete instance fetch result: a single running instance named
`web`. -/
def demoInstances : List Reservation :=
  [⟨[⟨"i-0abc", some "10.0.0.7", [⟨"Name", "web"⟩]⟩]⟩]

/-- An environment whose fetches succeed with the demo inventory. -/
def demoOkEnv : RefreshEnv :=
  { newSession := .ok (), assumeRole := .ok (), newSessionSts := .ok (),
    databases := .ok demoDatabases, instancesResult := .ok demoInstances }

/-- The cache published by a successful demo refresh. -/
def demoRefreshed : Cache :=
  match refresh (initCache mainAccount "aws.example.com.") demoOkEnv 5 with
  | .ok c' => c'
  | .error _ => initCache mainAccount "aws.example.com."

/-- Witness for C9: the demo refresh maps the colliding key `web` to the
instance record only. -/
theorem c9_witness :
    mapGet demoRefreshed.records ⟨LookupTag.NAME, "web"⟩
      = mapGet (createInstanceRecords demoInstances 5) ⟨LookupTag.NAME, "web"⟩ ∧
    mapGet demoRefreshed.records ⟨LookupTag.NAME, "web"⟩
      ≠ mapGet (createDatabaseRecords demoDatabases) ⟨LookupTag.NAME, "web"⟩
          ++ mapGet (createInstanceRecords demoInstances 5) ⟨LookupTag.NAME, "web"⟩ :=
  c9_instance_overwrites_database
    (initCache mainAccount "aws.example.com.") demoOkEnv 5 demoRefreshed
    demoDatabases demoInstances ⟨LookupTag.NAME, "web"⟩
    (by rfl) (by rfl) (by rfl) (by decide) (by decide)

/-! ### Aggregation across caches -/

/-- The aggregation loop concatenates the per-cache results in cache
order, keeping each per-cache sublist intact. -/
theorem aggregate_eq_join (caches : List Cache) (tag : LookupTag) (value : String) :
    aggregate caches tag value
      = (caches.map fun c => cacheLookup c tag value).flatten := by
  have step : ∀ (cs : List Cache) (acc : List Record),
      cs.foldl (fun acc c => acc ++ cacheLookup c tag value) acc
        = acc ++ (cs.map fun c => cacheLookup c tag value).flatten := by
    intro cs
    induction cs with
    | nil => intro acc; simp
    | cons c cs ih =>
      intro acc
      rw [List.foldl_cons, ih, List.map_cons, List.flatten]
      simp
  simpa [aggregate] using step caches []

/-- A successful refresh changes only the records of a cache. -/
theorem refresh_ok_preserves_account (c : Cache) (env : RefreshEnv) (now : Int)
    (c' : Cache) (hok : refresh c env now = .ok c') :
    c'.awsAccount = c.awsAccount ∧ c'.domain = c.domain := by
  unfold refresh at hok
  split at hok
  · exact Except.noConfusion hok
  · exact Except.noConfusion hok
  · exact Except.noConfusion hok
  · exact Except.noConfusion hok
  · injection hok with hok
    subst hok
    exact ⟨rfl, rfl⟩

/-- The loop of `NewCaches` yields one cache per configured account, in
configuration order. -/
theorem refreshAll_ok_accounts (accountEnvs : List (AWSAccount × RefreshEnv))
    (domain : String) (now : Int) (cs : List Cache)
    (h : refreshAll accountEnvs domain now = .ok cs) :
    cs.map (fun c => c.awsAccount) = accountEnvs.map (fun p => p.1) := by
  induction accountEnvs generalizing cs with
  | nil =>
    unfold refreshAll at h
    injection h with h
    subst h
    rfl
  | cons p rest ih =>
    obtain ⟨a, env⟩ := p
    unfold refreshAll at h
    split at h
    · exact Except.noConfusion h
    · rename_i c hc
      split at h
      · exact Except.noConfusion h
      · rename_i cs0 hcs
        injection h with h
        subst h
        have hacc := (refresh_ok_preserves_account _ _ _ _ hc).1
        simp only [List.map_cons, hacc, ih cs0 hcs]
        rfl

/--
C6 — for every lookup key, the aggregated result is the concatenation of
the per-cache lookup results in the order the caches appear, and the
caches built by `NewCaches` are the configured accounts in configuration
order with the implicit local `main` account last; each per-cache sublist
is the stored list itself, in its insertion order.
-/
theorem c6_aggregation_order (accountEnvs : List (AWSAccount × RefreshEnv))
    (mainEnv : RefreshEnv) (domain : String) (now : Int)
    (caches : List Cache) (count : Nat)
    (h : NewCaches accountEnvs mainEnv domain now = .ok (caches, count)) :
    (∀ tag value, aggregate caches tag value
      = (caches.map fun c => cacheLookup c tag value).flatten) ∧
    caches.map (fun c => c.awsAccount)
      = accountEnvs.map (fun p => p.1) ++ [mainAccount] := by
  refine ⟨fun tag value => aggregate_eq_join caches tag value, ?_⟩
  unfold NewCaches at h
  split at h
  · exact Except.noConfusion h
  · rename_i subs hsubs
    split at h
    · exact Except.noConfusion h
    · rename_i mainCache hmain
      injection h with h
      have hfst : subs ++ [mainCache] = caches := by
        simpa using congrArg Prod.fst h
      subst hfst
      rw [List.map_append, refreshAll_ok_accounts accountEnvs domain now subs hsubs]
      have hmacc := (refresh_ok_preserves_account _ _ _ _ hmain).1
      simp [hmacc, initCache]

/-- A configured child account used in the witness. -/
def demoAccount : AWSAccount :=
  { nickName := "prod", arn := "arn:aws:iam::123456789012:role/AWSNameServer",
    region := "us-east-1" }

/-- An environment for the child account whose fetches return one
database and no instances. -/
def demoSubEnv : RefreshEnv :=
  { newSession := .ok (), assumeRole := .ok (), newSessionSts := .ok (),
    databases := .ok demoDatabases, instancesResult := .ok [] }

/-- The caches a demo `NewCaches` run builds. -/
def demoNewCaches : List Cache × Nat :=
  match NewCaches [(demoAccount, demoSubEnv)] demoOkEnv "aws.example.com." 5 with
  | .ok r => r
  | .error _ => ([], 0)

/-- Witness for C6 on a concrete two-account configuration. -/
theorem c6_witness :
    aggregate demoNewCaches.1 LookupTag.NAME "web"
      = (demoNewCaches.1.map fun c => cacheLookup c LookupTag.NAME "web").flatten ∧
    demoNewCaches.1.map (fun c => c.awsAccount) = [demoAccount, mainAccount] := by
  have h := c6_aggregation_order [(demoAccount, demoSubEnv)] demoOkEnv
    "aws.example.com." 5 demoNewCaches.1 demoNewCaches.2 (by rfl)
  exact ⟨h.1 LookupTag.NAME "web", h.2⟩

/-! ### Name resolution -/

/-- The demo name server: serves `aws.example.com.` from the demo cache. -/
def demoServer : NameServer :=
  { domain := "aws.example.com.", hostname := "ns1.example.com.",
    caches := [demoCache] }

/--
C1 — evaluation of the code at the failing input: for the question name
`api.role.aws.example.com.` with no index segment, `Lookup` returns the
empty result even though the caches hold a ROLE record for `api`.  The
`hostNick` slice is taken from the label list before the `role` suffix is
stripped and is never rebound when no index is present, so the
two-element slice fails the well-formedness check and the role lookup is
logged as badly formed instead of returning the aggregated list.
-/
theorem c1_role_lookup_without_index_returns_empty :
    nsLookup demoServer "api.role.aws.example.com." = some [] ∧
    aggregate demoServer.caches LookupTag.ROLE "api" = [demoRecordA] := by
  constructor
  · rfl
  · rfl

/--
C5 — evaluation of the code at the failing input: for the question name
`-1.web.aws.example.com.` the first residual label parses as the negative
integer -1 (`strconv.Atoi` accepts a sign), the index is consumed, and
the slice expression `results[nth : nth+1]` panics at runtime (modelled as
`none`) instead of returning an empty result.
-/
theorem c5_negative_index_panics :
    nsLookup demoServer "-1.web.aws.example.com." = none := by
  rfl

/--
C4 — when a non-negative index `n` is parsed from the question name, the
lookup returns the empty result if `n` is out of range of the aggregated
list and otherwise exactly the single Record at 0-based position `n` of
the aggregated list.
-/
theorem c4_indexed_lookup (caches : List Cache) (s lbl : String) (n : Nat)
    (hparse : goAtoi s = some (n : Int)) (hrole : lbl ≠ "role") (hne : lbl ≠ "") :
    (∀ h : n < (aggregate caches LookupTag.NAME lbl).length,
        nsLookupParts caches [s, lbl]
          = some [(aggregate caches LookupTag.NAME lbl).get ⟨n, h⟩]) ∧
    ((aggregate caches LookupTag.NAME lbl).length ≤ n →
        nsLookupParts caches [s, lbl] = some []) := by
  have hn0 : ¬ ((n : Int) < 0) := by omega
  have heval : nsLookupParts caches [s, lbl]
      = if (aggregate caches LookupTag.NAME lbl).length ≤ n then some []
        else some (List.take 1 (List.drop n (aggregate caches LookupTag.NAME lbl))) := by
    conv_lhs => unfold nsLookupParts
    simp only [show ([s, lbl] : List String).getLastD "" = lbl from rfl,
      show ([s, lbl] : List String).headD "" = s from rfl,
      hparse, decide_eq_false hrole]
    simp [hparse, hne, hn0]
  constructor
  · intro h
    rw [heval, if_neg (by omega)]
    rw [List.drop_eq_getElem_cons h]
    rfl
  · intro h
    rw [heval, if_pos h]

/-- Witness for C4: index 1 into the two-record `web` set selects the
second record; index 7 is out of range and yields the empty result. -/
theorem c4_witness :
    nsLookupParts [demoCache] ["1", "web"] = some [demoRecordB] ∧
    nsLookupParts [demoCache] ["7", "web"] = some [] := by
  constructor
  · have h := (c4_indexed_lookup [demoCache] "1" "web" 1 (by rfl) (by decide)
      (by decide)).1 (by decide)
    rw [h]
    rfl
  · exact (c4_indexed_lookup [demoCache] "7" "web" 7 (by rfl) (by decide)
      (by decide)).2 (by decide)

/-! ### Sanitization -/

/-- Lowering an upper-case ASCII letter adds 32 to its code point. -/
theorem toNat_goToLower_of_upper (c : Char) (h : 65 ≤ c.toNat ∧ c.toNat ≤ 90) :
    (goToLower c).toNat = c.toNat + 32 := by
  unfold goToLower
  rw [if_pos h]
  have hlt : c.toNat + 32 < 55296 := by omega
  unfold Char.ofNat
  split
  · rfl
  · rename_i hv
    exact absurd (Or.inl hlt) hv

/-- Character lowering is idempotent. -/
theorem goToLower_idem (c : Char) : goToLower (goToLower c) = goToLower c := by
  have hfix : ∀ d : Char, ¬ (65 ≤ d.toNat ∧ d.toNat ≤ 90) → goToLower d = d :=
    fun d hd => by unfold goToLower; exact if_neg hd
  by_cases h : 65 ≤ c.toNat ∧ c.toNat ≤ 90
  · have h1 := toNat_goToLower_of_upper c h
    exact hfix _ (by omega)
  · have h2 := hfix c h
    rw [h2]
    exact h2

/-- Every character of a lowered string is fixed by lowering. -/
theorem lower_fixed_of_mem_map (l : List Char) (c : Char)
    (h : c ∈ l.map goToLower) : goToLower c = c := by
  rcases List.mem_map.mp h with ⟨a, _, rfl⟩
  exact goToLower_idem a

/-- Mapping a function that fixes every member is the identity. -/
theorem map_goToLower_id (m : List Char) (h : ∀ c ∈ m, goToLower c = c) :
    m.map goToLower = m := by
  induction m with
  | nil => rfl
  | cons c cs ih =>
    simp only [List.map_cons, h c (List.mem_cons_self c cs)]
    rw [ih fun d hd => h d (List.mem_cons_of_mem _ hd)]

/-- Every character of a run replacement comes from the input (and is in
the safe alphabet) or is the inserted hyphen. -/
theorem mem_replaceRunsAux (b : Bool) (l : List Char) (c : Char)
    (hc : c ∈ replaceRunsAux b l) : (c ∈ l ∧ saneChar c = true) ∨ c = '-' := by
  induction l generalizing b with
  | nil => simp [replaceRunsAux] at hc
  | cons d cs ih =>
    unfold replaceRunsAux at hc
    by_cases hd : saneChar d
    · rw [if_pos hd] at hc
      rcases List.mem_cons.mp hc with rfl | hmem
      · exact Or.inl ⟨List.mem_cons_self _ _, hd⟩
      · rcases ih false hmem with ⟨h1, h2⟩ | h
        · exact Or.inl ⟨List.mem_cons_of_mem _ h1, h2⟩
        · exact Or.inr h
    · rw [if_neg hd] at hc
      split at hc
      · rcases ih true hc with ⟨h1, h2⟩ | h
        · exact Or.inl ⟨List.mem_cons_of_mem _ h1, h2⟩
        · exact Or.inr h
      · rcases List.mem_cons.mp hc with rfl | hmem
        · exact Or.inr rfl
        · rcases ih true hmem with ⟨h1, h2⟩ | h
          · exact Or.inl ⟨List.mem_cons_of_mem _ h1, h2⟩
          · exact Or.inr h

/-- A run replacement only emits characters of the safe alphabet. -/
theorem all_sane_replaceRunsAux (b : Bool) (l : List Char) :
    (replaceRunsAux b l).all saneChar = true := by
  rw [List.all_eq_true]
  intro c hc
  rcases mem_replaceRunsAux b l c hc with ⟨_, h2⟩ | rfl
  · exact h2
  · decide

/-- Replacing runs in a non-empty string yields a non-empty string. -/
theorem replaceRunsAux_false_ne_nil (l : List Char) (h : l ≠ []) :
    replaceRunsAux false l ≠ [] := by
  cases l with
  | nil => exact absurd rfl h
  | cons c cs =>
    unfold replaceRunsAux
    by_cases hc : saneChar c
    · rw [if_pos hc]
      exact List.cons_ne_nil _ _
    · rw [if_neg hc, if_neg (by decide : ¬ (false = true))]
      exact List.cons_ne_nil _ _

/-- Lowering fixes a run replacement of an already-lowered string. -/
theorem map_goToLower_replaceRunsAux (b : Bool) (l : List Char)
    (h : ∀ c ∈ l, goToLower c = c) :
    (replaceRunsAux b l).map goToLower = replaceRunsAux b l := by
  apply map_goToLower_id
  intro c hc
  rcases mem_replaceRunsAux b l c hc with ⟨h1, _⟩ | rfl
  · exact h c h1
  · decide

/-- Sanitizing character lists is idempotent. -/
theorem sanitizeList_idem (l : List Char) :
    sanitizeList (sanitizeList l) = sanitizeList l := by
  have hfix : ∀ c ∈ l.map goToLower, goToLower c = c :=
    fun c hc => lower_fixed_of_mem_map l c hc
  by_cases hc : l.map goToLower ≠ [] ∧ (l.map goToLower).all saneChar
  · have h1 : sanitizeList l = l.map goToLower := by
      unfold sanitizeList
      rw [if_pos hc]
    rw [h1]
    have h2 : (l.map goToLower).map goToLower = l.map goToLower :=
      map_goToLower_id _ hfix
    unfold sanitizeList
    rw [h2, if_pos hc]
  · have h1 : sanitizeList l = replaceRunsAux false (l.map goToLower) := by
      unfold sanitizeList
      rw [if_neg hc]
    rw [h1]
    have hmap : (replaceRunsAux false (l.map goToLower)).map goToLower
        = replaceRunsAux false (l.map goToLower) :=
      map_goToLower_replaceRunsAux false _ hfix
    by_cases hnil : replaceRunsAux false (l.map goToLower) = []
    · rw [hnil]
      simp [sanitizeList, replaceRunsAux]
    · unfold sanitizeList
      rw [hmap, if_pos ⟨hnil, all_sane_replaceRunsAux false (l.map goToLower)⟩]

/--
C8 — `sanitize` is idempotent: `sanitize (sanitize x) = sanitize x` for
every input string, where `sanitize` lower-cases its input, keeps a result
matching the DNS-safe alphabet unchanged and otherwise replaces every
maximal run of disallowed characters with a single hyphen.
-/
theorem c8_sanitize_idempotent (s : String) : sanitize (sanitize s) = sanitize s :=
  congrArg String.mk (sanitizeList_idem s.data)

end AwsNameServer
